import Mathlib

/-!
Verification of the traceability-graph and test-rollup core of the
DOORs CSV → HTML generator (`src/generate_site.py`).

The Python module's data model and the five core operations —
identifier classification (`parse_external_id`, `is_test_id`),
graph construction (`Project.build_graph`), descendant traversal
(`Project.descendants`), rollup aggregation (`Project.tests_rollup`)
and label reduction (`summarize_counts`) — are embedded below as
executable Lean definitions.  Python dictionaries are modelled as
association lists keyed by `String` (first-match lookup, unique keys
as a hypothesis where iteration matters), Python sets as duplicate-free
lists, the fallible identifier parser as an `Option`, and the unbounded
`while` loop of `descendants` as a fuel-indexed recursion together with
an explicit measure that is proved sufficient.
-/

/-! ## String primitives

`str.strip`, `str.split("-")` and `"-".join` from the Python source are
modelled at the character-list level so that every definition reduces by
kernel computation. -/

/-- Characters stripped by Python's `str.strip()`: both ends, whitespace. -/
def trimChars (l : List Char) : List Char :=
  ((l.dropWhile Char.isWhitespace).reverse.dropWhile Char.isWhitespace).reverse

/-- Model of Python `str.strip()`. -/
def trimString (s : String) : String :=
  String.mk (trimChars s.data)

/-- Model of Python `str.split(sep)` for a one-character separator:
splitting `"a-b-"` on `'-'` yields `["a", "b", ""]`, and splitting the
empty string yields `[""]`. -/
def splitOnChar (c : Char) : List Char → List (List Char)
  | [] => [[]]
  | x :: xs =>
    match splitOnChar c xs with
    | [] => [[]]
    | h :: t => if x = c then [] :: h :: t else (x :: h) :: t

/-- Model of Python `sep.join(parts)`. -/
def joinWith (sep : String) : List String → String
  | [] => ""
  | [x] => x
  | x :: y :: rest => x ++ sep ++ joinWith sep (y :: rest)

/-! ## Dictionary primitives

Python `dict` values are modelled as association lists; lookup returns
the first entry with the given key (under the unique-keys invariant of a
`dict` this is the only one). -/

/-- Model of `d[k]` / `d.get(k)`: first entry with key `k`. -/
def dictGet {α : Type} : List (String × α) → String → Option α
  | [], _ => none
  | q :: m, k => if q.1 = k then some q.2 else dictGet m k

/-- The keys of a dictionary, in insertion order. -/
def dictKeys {α : Type} (m : List (String × α)) : List String :=
  m.map (fun q => q.1)

/-- Model of `d[k].append(v)` for a dict of lists: entries with key `k`
get `v` appended; a missing key leaves the dictionary unchanged (in the
Python source the key is always present when this operation runs). -/
def dictAppend (m : List (String × List String)) (k v : String) :
    List (String × List String) :=
  m.map (fun q => if q.1 = k then (q.1, q.2 ++ [v]) else q)

/-- Model of `d[k] = v`: overwrite in place when the key exists,
otherwise append a new entry at the end (Python dicts keep insertion
order). -/
def dictSet {α : Type} (m : List (String × α)) (k : String) (v : α) :
    List (String × α) :=
  if k ∈ dictKeys m then m.map (fun q => if q.1 = k then (q.1, v) else q)
  else m ++ [(k, v)]

/-- Model of `d.get(k, [])`. -/
def getList (m : List (String × List String)) (k : String) : List String :=
  (dictGet m k).getD []

/-- Model of `counts.get(k, 0)`. -/
def getCount (m : List (String × Nat)) (k : String) : Nat :=
  (dictGet m k).getD 0

/-- Sum of the values of a counts dictionary. -/
def sumVals (m : List (String × Nat)) : Nat :=
  (m.map (fun q => q.2)).sum

/-- Number of occurrences of `k` in `l`. -/
def countOcc : List String → String → Nat
  | [], _ => 0
  | x :: xs, k => countOcc xs k + (if x = k then 1 else 0)

/-! ## Data model (`@dataclass` definitions of the source) -/

/-- `ModuleInfo` dataclass. -/
structure ModuleInfo where
  name : String
  abbrev' : String
  level : String
  link : Option String := none
  qual_link : Option String := none
  parent_abbrev : Option String := none
deriving DecidableEq

/-- `Requirement` dataclass. -/
structure Requirement where
  external_id : String
  abbrev' : String
  sd : String
  counter : String
  heading : String
  text : String
  incoming : List String := []
  outgoing : List String := []
deriving DecidableEq

/-- `TestCase` dataclass. -/
structure TestCase where
  external_id : String
  abbrev' : String
  counter : String
  text : String
  result : String := "Not Run"
  additional : String := ""
deriving DecidableEq

/-- `Project` dataclass; the dict-typed fields are association lists. -/
structure Project where
  project_name : String
  levels : List String
  modules : List (String × ModuleInfo)
  requirements : List (String × Requirement)
  tests : List (String × TestCase)
  req_children : List (String × List String) := []
  req_tests : List (String × List String) := []
deriving DecidableEq

/-! ## Identifier classifier -/

/-- The segment list `parts` of `parse_external_id`:
`(eid or "").strip().split("-")`. -/
def idParts (eid : String) : List String :=
  (splitOnChar '-' (trimChars eid.data)).map (fun cs => String.mk cs)

/-- `parse_external_id`: strip, split on `'-'`; fewer than three segments
is the `ValueError` case (`none`); otherwise return the first segment,
the second segment, and the remaining segments rejoined with `'-'`. -/
def parse_external_id (eid : String) : Option (String × String × String) :=
  match idParts eid with
  | p0 :: p1 :: p2 :: rest => some (p0, p1, joinWith "-" (p2 :: rest))
  | _ => none

/-- `is_test_id`: true iff the identifier parses and its type code is
`"AT"`; the `except` clause maps any parse failure to `false`. -/
def is_test_id (eid : String) : Bool :=
  match parse_external_id eid with
  | some (_, sd, _) => sd == "AT"
  | none => false

/-! ## Rollup label reduction -/

/-- `summarize_counts`: the fixed-precedence reduction of a tally to one
label, exactly as in the source (keys `"FAILED"`, `"PARTIAL"`,
`"Not Run"`, `"NOT TESTED"`, `"PASSED"`). -/
def summarize_counts (counts : List (String × Nat)) (total : Nat) : String :=
  if total = 0 then "No Tests"
  else if 0 < getCount counts "FAILED" then "Any Fail"
  else if 0 < getCount counts "PARTIAL" then "Partial"
  else if 0 < getCount counts "Not Run" + getCount counts "NOT TESTED" then "NOT TESTED"
  else if getCount counts "PASSED" = total then "PASSED"
  else "Mixed"

/-! ## Graph builder -/

/-- The body of the inner loop of `Project.build_graph`: classify one
outgoing token `tgt` of requirement `rid` and append it to the matching
adjacency dictionary. -/
def classifyStep (p : Project) (rid : String)
    (maps : List (String × List String) × List (String × List String))
    (tgt : String) :
    List (String × List String) × List (String × List String) :=
  if is_test_id tgt then (maps.1, dictAppend maps.2 rid tgt)
  else if tgt ∈ dictKeys p.requirements then (dictAppend maps.1 rid tgt, maps.2)
  else maps

/-- The body of the outer loop of `Project.build_graph`: classify all
outgoing tokens of one requirement. -/
def buildStep (p : Project)
    (maps : List (String × List String) × List (String × List String))
    (rq : String × Requirement) :
    List (String × List String) × List (String × List String) :=
  rq.2.outgoing.foldl (classifyStep p rq.1) maps

/-- `Project.build_graph`: initialise an empty entry for every known
requirement id in both adjacency dictionaries, then classify every
outgoing token of every requirement in order. -/
def build_graph (p : Project) : Project :=
  let init : List (String × List String) := p.requirements.map (fun q => (q.1, []))
  let maps := p.requirements.foldl (buildStep p) (init, init)
  { p with req_children := maps.1, req_tests := maps.2 }

/-! ## Descendant resolver

The Python `while stack:` loop is modelled by a fuel-indexed recursion.
The stack is kept reversed relative to the Python list, so that
`stack.pop()` is taking the head and `stack.extend(children)` is
prepending the reversed child list.  `descMeasure` is the loop variant:
it strictly decreases at every iteration, so running the recursion with
the initial measure as fuel computes the loop's result. -/

/-- One-fuel-per-iteration version of the `while` loop of
`Project.descendants`. -/
def descendantsAux (m : List (String × List String)) :
    Nat → List String → List String → List String
  | 0, seen, _ => seen
  | _ + 1, seen, [] => seen
  | n + 1, seen, cur :: rest =>
    if cur ∈ seen then descendantsAux m n seen rest
    else descendantsAux m n (cur :: seen) ((getList m cur).reverse ++ rest)

/-- Adjacency mass not yet accounted for by the visited set. -/
def sumPart (m : List (String × List String)) (seen : List String) : Nat :=
  (m.map (fun q => if q.1 ∈ seen then 0 else q.2.length)).sum

/-- Loop variant of the `descendants` traversal. -/
def descMeasure (m : List (String × List String)) (seen stack : List String) : Nat :=
  stack.length + sumPart m seen

/-- `Project.descendants`: iterative traversal of `req_children` from
`rid` with a visited set, started on `rid`'s own child list. -/
def descendants (p : Project) (rid : String) : List String :=
  let stack := (getList p.req_children rid).reverse
  descendantsAux p.req_children (descMeasure p.req_children [] stack) [] stack

/-! ## Rollup aggregator -/

/-- The per-test category computed inside the tally loop of
`Project.tests_rollup`: `(tc.result if tc else "Missing").strip() or "Not Run"`. -/
def rollupCategory (p : Project) (tid : String) : String :=
  let res := trimString (match dictGet p.tests tid with
                         | some tc => tc.result
                         | none => "Missing")
  if res = "" then "Not Run" else res

/-- The body of the tally loop of `Project.tests_rollup`:
`counts[res] = counts.get(res, 0) + 1` for the category of one test id. -/
def bumpStep (p : Project) (counts : List (String × Nat)) (tid : String) :
    List (String × Nat) :=
  dictSet counts (rollupCategory p tid)
    ((dictGet counts (rollupCategory p tid)).getD 0 + 1)

/-- `Project.tests_rollup`: collect the direct tests of `rid` followed by
the direct tests of every descendant (duplicates preserved), tally the
per-test categories, and reduce to a label. -/
def tests_rollup (p : Project) (rid : String) :
    String × List (String × Nat) × List String :=
  let ids : List String :=
    (descendants p rid).foldl (fun acc child => acc ++ getList p.req_tests child)
      (getList p.req_tests rid)
  let counts : List (String × Nat) := ids.foldl (bumpStep p) []
  (summarize_counts counts ids.length, counts, ids)

/-! ## Link-resolver characterisation predicates -/

/-- A token is appended to the child adjacency iff it is not a test id
and is a known requirement key. -/
def childPred (p : Project) (t : String) : Bool :=
  !(is_test_id t) && decide (t ∈ dictKeys p.requirements)

/-- The child tokens of an outgoing list, in order. -/
def childTokens (p : Project) (out : List String) : List String :=
  out.filter (childPred p)

/-- The test tokens of an outgoing list, in order. -/
def testTokens (out : List String) : List String :=
  out.filter (fun t => is_test_id t)
/-! ## Dictionary lemmas -/

theorem dictKeys_nil {α : Type} : dictKeys ([] : List (String × α)) = [] := rfl

theorem dictKeys_cons {α : Type} (q : String × α) (m : List (String × α)) :
    dictKeys (q :: m) = q.1 :: dictKeys m := rfl

theorem mem_dictKeys {α : Type} {m : List (String × α)} {k : String} :
    k ∈ dictKeys m ↔ ∃ v, (k, v) ∈ m := by
  constructor
  · intro h
    rcases List.mem_map.mp h with ⟨q, hq, hk⟩
    exact ⟨q.2, by rw [← hk]; simpa using hq⟩
  · rintro ⟨v, hv⟩
    exact List.mem_map.mpr ⟨(k, v), hv, rfl⟩

theorem dictGet_eq_none {α : Type} {m : List (String × α)} {k : String}
    (h : k ∉ dictKeys m) : dictGet m k = none := by
  induction m with
  | nil => rfl
  | cons q m ih =>
    have hq : q.1 ≠ k := by
      intro hqk
      exact h (by simp [dictKeys_cons, hqk])
    have hm : k ∉ dictKeys m := fun hk => h (by simp [dictKeys_cons, hk])
    simp [dictGet, hq, ih hm]

theorem dictGet_isSome_of_mem {α : Type} {m : List (String × α)} {k : String}
    (h : k ∈ dictKeys m) : ∃ v, dictGet m k = some v := by
  induction m with
  | nil => simp [dictKeys] at h
  | cons q m ih =>
    by_cases hq : q.1 = k
    · exact ⟨q.2, by simp [dictGet, hq]⟩
    · rw [dictKeys_cons] at h
      have hk : k ∈ dictKeys m := by
        rcases List.mem_cons.mp h with h1 | h1
        · exact absurd h1.symm hq
        · exact h1
      rcases ih hk with ⟨v, hv⟩
      exact ⟨v, by simp [dictGet, hq, hv]⟩

theorem mem_of_dictGet_eq_some {α : Type} {m : List (String × α)} {k : String} {v : α}
    (h : dictGet m k = some v) : (k, v) ∈ m := by
  induction m with
  | nil => simp [dictGet] at h
  | cons q m ih =>
    obtain ⟨a, b⟩ := q
    by_cases hq : a = k
    · have hb : b = v := by simpa [dictGet, hq] using h
      subst hq
      subst hb
      exact List.mem_cons_self _ _
    · have h' : dictGet m k = some v := by simpa [dictGet, hq] using h
      exact List.mem_cons_of_mem _ (ih h')

theorem dictKeys_dictAppend (m : List (String × List String)) (k v : String) :
    dictKeys (dictAppend m k v) = dictKeys m := by
  induction m with
  | nil => rfl
  | cons q m ih =>
    by_cases hq : q.1 = k
    · simpa [dictAppend, dictKeys, hq] using ih
    · simpa [dictAppend, dictKeys, hq] using ih

theorem dictGet_dictAppend (m : List (String × List String)) (k v k' : String) :
    dictGet (dictAppend m k v) k' =
      if k' = k then (dictGet m k).map (fun l => l ++ [v]) else dictGet m k' := by
  induction m with
  | nil =>
    simp only [dictAppend, List.map_nil, dictGet]
    split <;> rfl
  | cons q m ih =>
    obtain ⟨a, b⟩ := q
    by_cases hak : a = k
    · subst hak
      by_cases hk' : k' = a
      · subst hk'
        simp [dictAppend, dictGet]
      · simp [dictAppend, dictGet, hk', Ne.symm hk'] at ih ⊢
        simp [ih, hk']
    · by_cases hk' : k' = k
      · subst hk'
        simp [dictAppend, dictGet, hak] at ih ⊢
        simp [ih]
      · by_cases hak' : a = k'
        · simp [dictAppend, dictGet, hak, hak', hk'] at ih ⊢
        · simp [dictAppend, dictGet, hak, hak', hk'] at ih ⊢
          simp [ih, hk']

theorem dictGet_map_const {α β : Type} (m : List (String × α)) (c : β) (k : String) :
    dictGet (m.map (fun q => (q.1, c))) k =
      if k ∈ dictKeys m then some c else none := by
  induction m with
  | nil => rfl
  | cons q m ih =>
    by_cases hq : q.1 = k
    · simp [dictGet, dictKeys_cons, hq]
    · have : ¬ k = q.1 := fun h => hq h.symm
      simp [dictGet, dictKeys_cons, hq, this, ih]

theorem dictKeys_map_pair {α β : Type} (m : List (String × α)) (f : String × α → β) :
    dictKeys (m.map (fun q => (q.1, f q))) = dictKeys m := by
  induction m with
  | nil => rfl
  | cons q m ih => simp [dictKeys] at ih ⊢

theorem dictGet_mapValueAt {α : Type} (m : List (String × α)) (k : String) (f : α → α)
    (k' : String) :
    dictGet (m.map (fun q => if q.1 = k then (q.1, f q.2) else q)) k' =
      if k' = k then (dictGet m k).map f else dictGet m k' := by
  induction m with
  | nil =>
    simp only [List.map_nil, dictGet]
    split <;> rfl
  | cons q m ih =>
    obtain ⟨a, b⟩ := q
    by_cases hak : a = k
    · subst hak
      by_cases hk' : k' = a
      · subst hk'
        simp [dictGet]
      · simp [dictGet, hk', Ne.symm hk'] at ih ⊢
        simp [ih, hk']
    · by_cases hk' : k' = k
      · subst hk'
        simp [dictGet, hak] at ih ⊢
        simp [ih]
      · by_cases hak' : a = k'
        · simp [dictGet, hak, hak', hk'] at ih ⊢
        · simp [dictGet, hak, hak', hk'] at ih ⊢
          simp [ih, hk']

theorem dictKeys_mapValueAt {α : Type} (m : List (String × α)) (k : String) (f : α → α) :
    dictKeys (m.map (fun q => if q.1 = k then (q.1, f q.2) else q)) = dictKeys m := by
  induction m with
  | nil => rfl
  | cons q m ih =>
    by_cases hq : q.1 = k
    · simpa [dictKeys, hq] using ih
    · simpa [dictKeys, hq] using ih

theorem dictGet_append_left {α : Type} {m1 : List (String × α)} (m2 : List (String × α))
    {k : String} {v : α} (h : dictGet m1 k = some v) : dictGet (m1 ++ m2) k = some v := by
  induction m1 with
  | nil => simp [dictGet] at h
  | cons q m ih =>
    by_cases hq : q.1 = k
    · simpa [dictGet, hq] using h
    · simp [dictGet, hq] at h ⊢
      exact ih h

theorem dictGet_append_right {α : Type} {m1 : List (String × α)} (m2 : List (String × α))
    {k : String} (h : dictGet m1 k = none) : dictGet (m1 ++ m2) k = dictGet m2 k := by
  induction m1 with
  | nil => simp
  | cons q m ih =>
    by_cases hq : q.1 = k
    · simp [dictGet, hq] at h
    · simp [dictGet, hq] at h ⊢
      exact ih h

theorem dictGet_dictSet {α : Type} (m : List (String × α)) (k : String) (v : α)
    (k' : String) :
    dictGet (dictSet m k v) k' = if k' = k then some v else dictGet m k' := by
  unfold dictSet
  by_cases hk : k ∈ dictKeys m
  · rcases dictGet_isSome_of_mem hk with ⟨w, hw⟩
    simp only [hk, if_true]
    rw [dictGet_mapValueAt m k (fun _ => v) k']
    by_cases hk' : k' = k <;> simp [hk', hw]
  · simp only [hk, if_false]
    by_cases hk' : k' = k
    · subst hk'
      rw [dictGet_append_right _ (dictGet_eq_none hk)]
      simp [dictGet]
    · rcases hcase : dictGet m k' with _ | w
      · rw [dictGet_append_right _ hcase]
        simp [dictGet, hk', hcase, Ne.symm hk']
      · rw [dictGet_append_left _ hcase]
        simp [hk']

theorem dictKeys_dictSet {α : Type} (m : List (String × α)) (k : String) (v : α) :
    dictKeys (dictSet m k v) =
      if k ∈ dictKeys m then dictKeys m else dictKeys m ++ [k] := by
  unfold dictSet
  by_cases hk : k ∈ dictKeys m
  · rw [if_pos hk, if_pos hk]
    exact dictKeys_mapValueAt m k (fun _ => v)
  · rw [if_neg hk, if_neg hk]
    simp [dictKeys]

theorem nodup_dictKeys_dictSet {α : Type} {m : List (String × α)} {k : String} {v : α}
    (h : (dictKeys m).Nodup) : (dictKeys (dictSet m k v)).Nodup := by
  rw [dictKeys_dictSet]
  by_cases hk : k ∈ dictKeys m
  · simpa [hk] using h
  · simp only [hk, if_false]
    simp [List.nodup_append, h, hk]

theorem map_update_id {α : Type} {m : List (String × α)} {k : String} {v : α}
    (h : k ∉ dictKeys m) : m.map (fun q => if q.1 = k then (q.1, v) else q) = m := by
  induction m with
  | nil => rfl
  | cons q m ih =>
    have hq : q.1 ≠ k := fun hqk => h (by simp [dictKeys_cons, hqk])
    have hm : k ∉ dictKeys m := fun hk => h (by simp [dictKeys_cons, hk])
    simp [hq, ih hm]

theorem sumVals_append (m1 m2 : List (String × Nat)) :
    sumVals (m1 ++ m2) = sumVals m1 + sumVals m2 := by
  simp [sumVals]

theorem sumVals_dictSet_of_not_mem {m : List (String × Nat)} {k : String} (v : Nat)
    (h : k ∉ dictKeys m) : sumVals (dictSet m k v) = sumVals m + v := by
  simp [dictSet, h, sumVals_append, sumVals]

theorem sumVals_dictSet_of_mem {m : List (String × Nat)} {k : String} {w : Nat} (v : Nat)
    (hnd : (dictKeys m).Nodup) (hw : dictGet m k = some w) :
    sumVals (dictSet m k v) + w = sumVals m + v := by
  have hk : k ∈ dictKeys m := mem_dictKeys.mpr ⟨w, mem_of_dictGet_eq_some hw⟩
  induction m with
  | nil => simp [dictGet] at hw
  | cons q m ih =>
    obtain ⟨a, b⟩ := q
    rw [dictKeys_cons] at hnd
    have ha : a ∉ dictKeys m := (List.nodup_cons.mp hnd).1
    have hm : (dictKeys m).Nodup := (List.nodup_cons.mp hnd).2
    by_cases hak : a = k
    · subst hak
      have hb : b = w := by simpa [dictGet] using hw
      subst hb
      have hid : m.map (fun q => if q.1 = a then (q.1, v) else q) = m := map_update_id ha
      simp [dictSet, dictKeys_cons, sumVals, hid]
      omega
    · have hw' : dictGet m k = some w := by simpa [dictGet, hak] using hw
      have hk' : k ∈ dictKeys m := mem_dictKeys.mpr ⟨w, mem_of_dictGet_eq_some hw'⟩
      have step : dictSet ((a, b) :: m) k v = (a, b) :: dictSet m k v := by
        simp [dictSet, dictKeys_cons, hk', hak, List.mem_cons]
      rw [step]
      have := ih hm hw' hk'
      simp [sumVals] at this ⊢
      omega

theorem sumVals_bump {m : List (String × Nat)} {k : String}
    (hnd : (dictKeys m).Nodup) :
    sumVals (dictSet m k ((dictGet m k).getD 0 + 1)) = sumVals m + 1 := by
  by_cases hk : k ∈ dictKeys m
  · rcases dictGet_isSome_of_mem hk with ⟨w, hw⟩
    have := sumVals_dictSet_of_mem (w + 1) hnd hw
    rw [hw]
    simp only [Option.getD_some]
    omega
  · rw [dictGet_eq_none hk]
    simpa using sumVals_dictSet_of_not_mem 1 hk

/-! ## Graph-builder characterisation -/

theorem foldl_classify_get (p : Project) (rid : String) (out : List String) :
    ∀ (maps : List (String × List String) × List (String × List String)) (k : String),
      dictGet (out.foldl (classifyStep p rid) maps).1 k =
        (if k = rid then (dictGet maps.1 k).map (fun l => l ++ childTokens p out)
         else dictGet maps.1 k) ∧
      dictGet (out.foldl (classifyStep p rid) maps).2 k =
        (if k = rid then (dictGet maps.2 k).map (fun l => l ++ testTokens out)
         else dictGet maps.2 k) := by
  induction out with
  | nil =>
    intro maps k
    constructor
    · by_cases hk : k = rid
      · subst hk
        cases h : dictGet maps.1 k <;> simp [childTokens, h]
      · simp [hk]
    · by_cases hk : k = rid
      · subst hk
        cases h : dictGet maps.2 k <;> simp [testTokens, h]
      · simp [hk]
  | cons t out ih =>
    intro maps k
    by_cases ht : is_test_id t
    · have hstep : classifyStep p rid maps t = (maps.1, dictAppend maps.2 rid t) := by
        simp [classifyStep, ht]
      have hct : childTokens p (t :: out) = childTokens p out := by
        simp [childTokens, List.filter_cons, childPred, ht]
      have htt : testTokens (t :: out) = t :: testTokens out := by
        simp [testTokens, List.filter_cons, ht]
      rcases ih (maps.1, dictAppend maps.2 rid t) k with ⟨ih1, ih2⟩
      constructor
      · rw [List.foldl_cons, hstep, ih1, hct]
      · rw [List.foldl_cons, hstep, ih2, htt]
        by_cases hk : k = rid
        · subst hk
          rw [if_pos rfl, if_pos rfl]
          rw [dictGet_dictAppend, if_pos rfl]
          cases dictGet maps.2 k <;> simp
        · rw [if_neg hk, if_neg hk]
          rw [dictGet_dictAppend, if_neg hk]
    · by_cases hmem : t ∈ dictKeys p.requirements
      · have hstep : classifyStep p rid maps t = (dictAppend maps.1 rid t, maps.2) := by
          simp [classifyStep, ht, hmem]
        have hct : childTokens p (t :: out) = t :: childTokens p out := by
          simp [childTokens, List.filter_cons, childPred, ht, hmem]
        have htt : testTokens (t :: out) = testTokens out := by
          simp [testTokens, List.filter_cons, ht]
        rcases ih (dictAppend maps.1 rid t, maps.2) k with ⟨ih1, ih2⟩
        constructor
        · rw [List.foldl_cons, hstep, ih1, hct]
          by_cases hk : k = rid
          · subst hk
            rw [if_pos rfl, if_pos rfl]
            rw [dictGet_dictAppend, if_pos rfl]
            cases dictGet maps.1 k <;> simp
          · rw [if_neg hk, if_neg hk]
            rw [dictGet_dictAppend, if_neg hk]
        · rw [List.foldl_cons, hstep, ih2, htt]
      · have hstep : classifyStep p rid maps t = maps := by
          simp [classifyStep, ht, hmem]
        have hct : childTokens p (t :: out) = childTokens p out := by
          simp [childTokens, List.filter_cons, childPred, ht, hmem]
        have htt : testTokens (t :: out) = testTokens out := by
          simp [testTokens, List.filter_cons, ht]
        rcases ih maps k with ⟨ih1, ih2⟩
        constructor
        · rw [List.foldl_cons, hstep, ih1, hct]
        · rw [List.foldl_cons, hstep, ih2, htt]

theorem foldl_classify_keys (p : Project) (rid : String) (out : List String) :
    ∀ (maps : List (String × List String) × List (String × List String)),
      dictKeys (out.foldl (classifyStep p rid) maps).1 = dictKeys maps.1 ∧
      dictKeys (out.foldl (classifyStep p rid) maps).2 = dictKeys maps.2 := by
  induction out with
  | nil => intro maps; exact ⟨rfl, rfl⟩
  | cons t out ih =>
    intro maps
    rcases ih (classifyStep p rid maps t) with ⟨ih1, ih2⟩
    have h1 : dictKeys (classifyStep p rid maps t).1 = dictKeys maps.1 := by
      unfold classifyStep
      split_ifs <;> simp [dictKeys_dictAppend]
    have h2 : dictKeys (classifyStep p rid maps t).2 = dictKeys maps.2 := by
      unfold classifyStep
      split_ifs <;> simp [dictKeys_dictAppend]
    rw [List.foldl_cons]
    exact ⟨ih1.trans h1, ih2.trans h2⟩

theorem foldl_build_frame (p : Project) (rs : List (String × Requirement)) :
    ∀ (maps : List (String × List String) × List (String × List String)) (k : String),
      k ∉ rs.map Prod.fst →
      dictGet (rs.foldl (buildStep p) maps).1 k = dictGet maps.1 k ∧
      dictGet (rs.foldl (buildStep p) maps).2 k = dictGet maps.2 k := by
  induction rs with
  | nil => intro maps k _; exact ⟨rfl, rfl⟩
  | cons rq rs ih =>
    intro maps k hk
    have hk1 : k ≠ rq.1 := by
      intro h
      exact hk (by simp [h])
    have hk2 : k ∉ rs.map Prod.fst := fun h => hk (by simp [h])
    rcases foldl_classify_get p rq.1 rq.2.outgoing maps k with ⟨h1, h2⟩
    rcases ih (buildStep p maps rq) k hk2 with ⟨ih1, ih2⟩
    rw [List.foldl_cons]
    constructor
    · rw [ih1]
      unfold buildStep
      rw [h1, if_neg hk1]
    · rw [ih2]
      unfold buildStep
      rw [h2, if_neg hk1]

theorem foldl_build_main (p : Project) (l1 l2 : List (String × Requirement))
    (rid : String) (req : Requirement)
    (h1 : rid ∉ l1.map Prod.fst) (h2 : rid ∉ l2.map Prod.fst)
    (maps : List (String × List String) × List (String × List String)) :
    dictGet ((l1 ++ (rid, req) :: l2).foldl (buildStep p) maps).1 rid =
      (dictGet maps.1 rid).map (fun l => l ++ childTokens p req.outgoing) ∧
    dictGet ((l1 ++ (rid, req) :: l2).foldl (buildStep p) maps).2 rid =
      (dictGet maps.2 rid).map (fun l => l ++ testTokens req.outgoing) := by
  rcases foldl_build_frame p l1 maps rid h1 with ⟨f1, f2⟩
  rcases foldl_classify_get p rid req.outgoing (l1.foldl (buildStep p) maps) rid
    with ⟨g1, g2⟩
  rcases foldl_build_frame p l2
    (buildStep p (l1.foldl (buildStep p) maps) (rid, req)) rid h2 with ⟨e1, e2⟩
  rw [List.foldl_append, List.foldl_cons]
  constructor
  · rw [e1]
    show dictGet (req.outgoing.foldl (classifyStep p rid) (l1.foldl (buildStep p) maps)).1 rid = _
    rw [g1, if_pos rfl, f1]
  · rw [e2]
    show dictGet (req.outgoing.foldl (classifyStep p rid) (l1.foldl (buildStep p) maps)).2 rid = _
    rw [g2, if_pos rfl, f2]

theorem build_graph_keys (p : Project) :
    dictKeys (build_graph p).req_children = dictKeys p.requirements ∧
    dictKeys (build_graph p).req_tests = dictKeys p.requirements := by
  have hfold : ∀ (rs : List (String × Requirement))
      (maps : List (String × List String) × List (String × List String)),
      dictKeys (rs.foldl (buildStep p) maps).1 = dictKeys maps.1 ∧
      dictKeys (rs.foldl (buildStep p) maps).2 = dictKeys maps.2 := by
    intro rs
    induction rs with
    | nil => intro maps; exact ⟨rfl, rfl⟩
    | cons rq rs ih =>
      intro maps
      rcases foldl_classify_keys p rq.1 rq.2.outgoing maps with ⟨h1, h2⟩
      rcases ih (buildStep p maps rq) with ⟨ih1, ih2⟩
      rw [List.foldl_cons]
      exact ⟨ih1.trans h1, ih2.trans h2⟩
  have hinit : dictKeys (p.requirements.map (fun q => (q.1, ([] : List String)))) =
      dictKeys p.requirements :=
    dictKeys_map_pair p.requirements (fun _ => ([] : List String))
  rcases hfold p.requirements
    (p.requirements.map (fun q => (q.1, ([] : List String))),
     p.requirements.map (fun q => (q.1, ([] : List String)))) with ⟨k1, k2⟩
  exact ⟨k1.trans hinit, k2.trans hinit⟩

theorem build_graph_get (p : Project) (hnd : (dictKeys p.requirements).Nodup)
    {rid : String} {req : Requirement} (hmem : (rid, req) ∈ p.requirements) :
    dictGet (build_graph p).req_children rid = some (childTokens p req.outgoing) ∧
    dictGet (build_graph p).req_tests rid = some (testTokens req.outgoing) := by
  rcases List.append_of_mem hmem with ⟨l1, l2, hsplit⟩
  have hks : dictKeys p.requirements = l1.map Prod.fst ++ rid :: l2.map Prod.fst := by
    rw [hsplit]
    simp [dictKeys]
  rw [hks] at hnd
  rcases List.nodup_append.mp hnd with ⟨_, hnd2, hdisj⟩
  have h1 : rid ∉ l1.map Prod.fst := fun h => hdisj h (by simp)
  have h2 : rid ∉ l2.map Prod.fst := (List.nodup_cons.mp hnd2).1
  have hridk : rid ∈ dictKeys p.requirements := mem_dictKeys.mpr ⟨req, hmem⟩
  have hinit : dictGet (p.requirements.map (fun q => (q.1, ([] : List String)))) rid =
      some [] := by
    rw [dictGet_map_const p.requirements ([] : List String) rid]
    simp [hridk]
  rcases foldl_build_main p l1 l2 rid req h1 h2
    (p.requirements.map (fun q => (q.1, ([] : List String))),
     p.requirements.map (fun q => (q.1, ([] : List String)))) with ⟨m1, m2⟩
  rw [← hsplit] at m1 m2
  constructor
  · show dictGet (p.requirements.foldl (buildStep p)
      (p.requirements.map (fun q => (q.1, ([] : List String))),
       p.requirements.map (fun q => (q.1, ([] : List String))))).1 rid = _
    rw [m1, hinit]
    rfl
  · show dictGet (p.requirements.foldl (buildStep p)
      (p.requirements.map (fun q => (q.1, ([] : List String))),
       p.requirements.map (fun q => (q.1, ([] : List String))))).2 rid = _
    rw [m2, hinit]
    rfl

/-! ## Descendant-resolver lemmas -/

theorem descendantsAux_invariant (m : List (String × List String)) (P : String → Prop)
    (hm : ∀ k x, x ∈ getList m k → P x) :
    ∀ (n : Nat) (seen stack : List String),
      (∀ x ∈ seen, P x) → (∀ x ∈ stack, P x) →
      ∀ x ∈ descendantsAux m n seen stack, P x := by
  intro n
  induction n with
  | zero => intro seen stack hs _ x hx; exact hs x hx
  | succ n ih =>
    intro seen stack hs hst x hx
    cases stack with
    | nil => exact hs x (by simpa [descendantsAux] using hx)
    | cons cur rest =>
      by_cases hcur : cur ∈ seen
      · rw [show descendantsAux m (n + 1) seen (cur :: rest) =
            descendantsAux m n seen rest from by simp [descendantsAux, hcur]] at hx
        exact ih seen rest hs (fun y hy => hst y (List.mem_cons_of_mem _ hy)) x hx
      · rw [show descendantsAux m (n + 1) seen (cur :: rest) =
            descendantsAux m n (cur :: seen) ((getList m cur).reverse ++ rest) from by
          simp [descendantsAux, hcur]] at hx
        refine ih (cur :: seen) _ ?_ ?_ x hx
        · intro y hy
          rcases List.mem_cons.mp hy with h | h
          · exact h ▸ hst cur (List.mem_cons_self _ _)
          · exact hs y h
        · intro y hy
          rcases List.mem_append.mp hy with h | h
          · exact hm cur y (List.mem_reverse.mp h)
          · exact hst y (List.mem_cons_of_mem _ h)

theorem descendantsAux_nodup (m : List (String × List String)) :
    ∀ (n : Nat) (seen stack : List String), seen.Nodup →
      (descendantsAux m n seen stack).Nodup := by
  intro n
  induction n with
  | zero => intro seen stack h; exact h
  | succ n ih =>
    intro seen stack h
    cases stack with
    | nil => exact h
    | cons cur rest =>
      by_cases hcur : cur ∈ seen
      · rw [show descendantsAux m (n + 1) seen (cur :: rest) =
            descendantsAux m n seen rest from by simp [descendantsAux, hcur]]
        exact ih seen rest h
      · rw [show descendantsAux m (n + 1) seen (cur :: rest) =
            descendantsAux m n (cur :: seen) ((getList m cur).reverse ++ rest) from by
          simp [descendantsAux, hcur]]
        exact ih _ _ (List.nodup_cons.mpr ⟨hcur, h⟩)

theorem sumPart_mono (m : List (String × List String)) (cur : String) (seen : List String) :
    sumPart m (cur :: seen) ≤ sumPart m seen := by
  induction m with
  | nil => simp [sumPart]
  | cons q m ih =>
    simp only [sumPart, List.map_cons, List.sum_cons] at ih ⊢
    have hhead : (if q.1 ∈ cur :: seen then 0 else q.2.length) ≤
        (if q.1 ∈ seen then 0 else q.2.length) := by
      by_cases h : q.1 ∈ seen
      · simp [h, List.mem_cons]
      · by_cases h2 : q.1 ∈ cur :: seen <;> simp [h, h2]
    omega

theorem sumPart_cons_le (m : List (String × List String)) {cur : String}
    {seen : List String} (h : cur ∉ seen) :
    sumPart m (cur :: seen) + (getList m cur).length ≤ sumPart m seen := by
  induction m with
  | nil => simp [sumPart, getList, dictGet]
  | cons q m ih =>
    by_cases hq : q.1 = cur
    · have hmono := sumPart_mono m cur seen
      have hold : (if q.1 ∈ seen then 0 else q.2.length) = q.2.length := by
        simp [hq, h]
      have hnew : (if q.1 ∈ cur :: seen then 0 else q.2.length) = 0 := by
        simp [hq]
      have hget : getList (q :: m) cur = q.2 := by
        simp [getList, dictGet, hq]
      simp only [sumPart, List.map_cons, List.sum_cons] at ih ⊢
      rw [hget, hold, hnew]
      omega
    · have hheads : (if q.1 ∈ cur :: seen then 0 else q.2.length) =
          (if q.1 ∈ seen then 0 else q.2.length) := by
        by_cases hs : q.1 ∈ seen
        · simp [hs, List.mem_cons]
        · simp [List.mem_cons, hq, hs]
      have hget : getList (q :: m) cur = getList m cur := by
        simp [getList, dictGet, hq]
      simp only [sumPart, List.map_cons, List.sum_cons] at ih ⊢
      rw [hget, hheads]
      omega

theorem descendantsAux_fuel_succ (m : List (String × List String)) :
    ∀ (n : Nat) (seen stack : List String), descMeasure m seen stack ≤ n →
      descendantsAux m (n + 1) seen stack = descendantsAux m n seen stack := by
  intro n
  induction n with
  | zero =>
    intro seen stack h
    have hstack : stack = [] := by
      cases stack with
      | nil => rfl
      | cons a l => simp [descMeasure] at h
    subst hstack
    rfl
  | succ n ih =>
    intro seen stack h
    cases stack with
    | nil => rfl
    | cons cur rest =>
      by_cases hcur : cur ∈ seen
      · rw [show descendantsAux m (n + 1 + 1) seen (cur :: rest) =
            descendantsAux m (n + 1) seen rest from by simp [descendantsAux, hcur]]
        rw [show descendantsAux m (n + 1) seen (cur :: rest) =
            descendantsAux m n seen rest from by simp [descendantsAux, hcur]]
        apply ih
        simp only [descMeasure, List.length_cons] at h ⊢
        omega
      · rw [show descendantsAux m (n + 1 + 1) seen (cur :: rest) =
            descendantsAux m (n + 1) (cur :: seen) ((getList m cur).reverse ++ rest) from by
          simp [descendantsAux, hcur]]
        rw [show descendantsAux m (n + 1) seen (cur :: rest) =
            descendantsAux m n (cur :: seen) ((getList m cur).reverse ++ rest) from by
          simp [descendantsAux, hcur]]
        apply ih
        have hle := sumPart_cons_le m hcur
        simp only [descMeasure, List.length_cons, List.length_append,
          List.length_reverse] at h ⊢
        omega

theorem descendantsAux_stable (m : List (String × List String)) {n n' : Nat}
    (seen stack : List String) (h : descMeasure m seen stack ≤ n) (h' : n ≤ n') :
    descendantsAux m n' seen stack = descendantsAux m n seen stack := by
  induction n' with
  | zero =>
    have hn : n = 0 := Nat.le_zero.mp h'
    subst hn
    rfl
  | succ n' ih =>
    rcases Nat.lt_or_ge n (n' + 1) with hlt | hge
    · have hle : n ≤ n' := Nat.lt_succ_iff.mp hlt
      rw [descendantsAux_fuel_succ m n' seen stack (le_trans h hle), ih hle]
    · have hn : n = n' + 1 := le_antisymm h' hge
      subst hn
      rfl

theorem descendants_eq_aux (p : Project) (rid : String) {n : Nat}
    (h : descMeasure p.req_children [] ((getList p.req_children rid).reverse) ≤ n) :
    descendantsAux p.req_children n [] ((getList p.req_children rid).reverse) =
      descendants p rid := by
  unfold descendants
  exact descendantsAux_stable p.req_children _ _ (le_refl _) h

theorem descendants_nodup (p : Project) (rid : String) : (descendants p rid).Nodup := by
  unfold descendants
  exact descendantsAux_nodup _ _ _ _ List.nodup_nil

theorem mem_getList_exists {m : List (String × List String)} {k x : String}
    (hx : x ∈ getList m k) : ∃ v, dictGet m k = some v ∧ x ∈ v := by
  rcases hget : dictGet m k with _ | v
  · rw [getList, hget] at hx
    simp at hx
  · rw [getList, hget] at hx
    exact ⟨v, rfl, by simpa using hx⟩

theorem descendants_invariant (p : Project) (P : String → Prop)
    (hm : ∀ k x, x ∈ getList p.req_children k → P x) (rid : String) :
    ∀ x ∈ descendants p rid, P x := by
  intro x hx
  unfold descendants at hx
  refine descendantsAux_invariant p.req_children P hm _ [] _ (by simp) ?_ x hx
  intro y hy
  exact hm rid y (List.mem_reverse.mp hy)

theorem descendants_mem_some_value (p : Project) (rid x : String)
    (hx : x ∈ descendants p rid) : ∃ q, q ∈ p.req_children ∧ x ∈ q.2 := by
  refine descendants_invariant p (fun y => ∃ q, q ∈ p.req_children ∧ y ∈ q.2) ?_ rid x hx
  intro k y hy
  rcases mem_getList_exists hy with ⟨v, hget, hyv⟩
  exact ⟨(k, v), mem_of_dictGet_eq_some hget, hyv⟩

/-! ## Identifier-classifier lemmas -/

theorem parse_none_iff (eid : String) :
    parse_external_id eid = none ↔ (idParts eid).length < 3 := by
  unfold parse_external_id
  rcases idParts eid with _ | ⟨a, _ | ⟨b, _ | ⟨c, rest⟩⟩⟩ <;> simp

theorem parse_some_eq (eid : String) (p0 p1 p2 : String) (rest : List String)
    (h : idParts eid = p0 :: p1 :: p2 :: rest) :
    parse_external_id eid = some (p0, p1, joinWith "-" (p2 :: rest)) := by
  unfold parse_external_id
  rw [h]

theorem is_test_id_iff (eid : String) :
    is_test_id eid = true ↔ ∃ a c, parse_external_id eid = some (a, "AT", c) := by
  unfold is_test_id
  rcases h : parse_external_id eid with _ | ⟨a, sd, c⟩
  · simp
  · constructor
    · intro hsd
      have : sd = "AT" := by simpa using hsd
      exact ⟨a, c, by rw [this]⟩
    · rintro ⟨a2, c2, heq⟩
      have : sd = "AT" := by
        have := Option.some.inj heq
        simpa using congrArg (fun q => q.2.1) this
      simpa using this

theorem is_test_id_of_parse_none (eid : String) (h : parse_external_id eid = none) :
    is_test_id eid = false := by
  unfold is_test_id
  rw [h]

/-! ## Label-reduction congruence -/

theorem summarize_counts_congr (c1 c2 : List (String × Nat)) (total : Nat)
    (h : ∀ k, getCount c1 k = getCount c2 k) :
    summarize_counts c1 total = summarize_counts c2 total := by
  unfold summarize_counts
  rw [h "FAILED", h "PARTIAL", h "Not Run", h "NOT TESTED", h "PASSED"]

/-! ## Concrete example projects -/

/-- Requirement A of the two-cycle example: its only outgoing link is B. -/
def reqA : Requirement :=
  { external_id := "SYS-SRS-001", abbrev' := "SYS", sd := "SRS", counter := "001",
    heading := "", text := "", incoming := [], outgoing := ["SYS-SRS-002"] }

/-- Requirement B of the two-cycle example: its only outgoing link is A. -/
def reqB : Requirement :=
  { external_id := "SYS-SRS-002", abbrev' := "SYS", sd := "SRS", counter := "002",
    heading := "", text := "", incoming := [], outgoing := ["SYS-SRS-001"] }

/-- A project whose child graph is the two-cycle A→B→A. -/
def cycleBase : Project :=
  { project_name := "Cycle", levels := [], modules := [],
    requirements := [("SYS-SRS-001", reqA), ("SYS-SRS-002", reqB)], tests := [] }

/-- The two-cycle project with its adjacency maps built. -/
def cycleProj : Project := build_graph cycleBase

/-- Root requirement with two children. -/
def reqRoot : Requirement :=
  { external_id := "SYS-SRS-001", abbrev' := "SYS", sd := "SRS", counter := "001",
    heading := "", text := "", outgoing := ["SYS-SRS-002", "SYS-SRS-003"] }

/-- First child; links the shared test. -/
def reqMid1 : Requirement :=
  { external_id := "SYS-SRS-002", abbrev' := "SYS", sd := "SRS", counter := "002",
    heading := "", text := "", outgoing := ["SYS-AT-009"] }

/-- Second child; links the same test. -/
def reqMid2 : Requirement :=
  { external_id := "SYS-SRS-003", abbrev' := "SYS", sd := "SRS", counter := "003",
    heading := "", text := "", outgoing := ["SYS-AT-009"] }

/-- The shared passing test record. -/
def tcPass : TestCase :=
  { external_id := "SYS-AT-009", abbrev' := "SYS", counter := "009", text := "",
    result := "PASSED" }

/-- A test record whose result is blank after trimming. -/
def tcBlank : TestCase :=
  { external_id := "SYS-AT-010", abbrev' := "SYS", counter := "010", text := "",
    result := "  " }

/-- A project in which one test is reachable through two descendants. -/
def dupBase : Project :=
  { project_name := "Dup", levels := [], modules := [],
    requirements := [("SYS-SRS-001", reqRoot), ("SYS-SRS-002", reqMid1),
                     ("SYS-SRS-003", reqMid2)],
    tests := [("SYS-AT-009", tcPass), ("SYS-AT-010", tcBlank)] }

/-- The duplicate-test project with its adjacency maps built. -/
def dupProj : Project := build_graph dupBase

/-- A requirement with a child link, a test link and a broken link. -/
def reqR1 : Requirement :=
  { external_id := "SYS-SRS-010", abbrev' := "SYS", sd := "SRS", counter := "010",
    heading := "", text := "",
    outgoing := ["SYS-SRS-011", "SYS-AT-003", "SYS-SRS-999"] }

/-- A leaf requirement. -/
def reqR2 : Requirement :=
  { external_id := "SYS-SRS-011", abbrev' := "SYS", sd := "SRS", counter := "011",
    heading := "", text := "", outgoing := [] }

/-- Project with one broken link and one test link to an unknown test. -/
def exampleBase : Project :=
  { project_name := "Example", levels := [], modules := [],
    requirements := [("SYS-SRS-010", reqR1), ("SYS-SRS-011", reqR2)], tests := [] }

/-! ## Claims -/

/-- C1 (counterexample): the rollup precedence of the source keys its tally
lookups on the literal strings FAILED, PARTIAL, "Not Run", "NOT TESTED" and
PASSED, so a tally of one Fail and five Pass reduces to "Mixed", not to
"Any Fail" as claimed. -/
theorem C1_counterexample :
    summarize_counts [("Fail", 1), ("Pass", 5)] 6 = "Mixed" ∧
    summarize_counts [("Fail", 1), ("Pass", 5)] 6 ≠ "Any Fail" := by
  constructor
  · rfl
  · decide

/-- C1 (amended): `summarize_counts` reduces a tally by fixed precedence,
in this exact order and depending only on the per-key counts (hence on no
iteration order): total 0 gives "No Tests" (and a rollup with an empty
associated-test list returns exactly ("No Tests", empty counts, empty
list)); otherwise a positive FAILED count gives "Any Fail"; else a
positive PARTIAL count gives "Partial"; else a positive "Not Run" or
"NOT TESTED" count gives "NOT TESTED"; else a PASSED count equal to the
total gives "PASSED"; otherwise "Mixed" — Missing counts never trigger
the not-run branch. -/
theorem C1_label_precedence :
    (∀ (counts : List (String × Nat)) (total : Nat), total = 0 →
       summarize_counts counts total = "No Tests") ∧
    (∀ (counts : List (String × Nat)) (total : Nat), total ≠ 0 →
       0 < getCount counts "FAILED" →
       summarize_counts counts total = "Any Fail") ∧
    (∀ (counts : List (String × Nat)) (total : Nat), total ≠ 0 →
       getCount counts "FAILED" = 0 → 0 < getCount counts "PARTIAL" →
       summarize_counts counts total = "Partial") ∧
    (∀ (counts : List (String × Nat)) (total : Nat), total ≠ 0 →
       getCount counts "FAILED" = 0 → getCount counts "PARTIAL" = 0 →
       0 < getCount counts "Not Run" + getCount counts "NOT TESTED" →
       summarize_counts counts total = "NOT TESTED") ∧
    (∀ (counts : List (String × Nat)) (total : Nat), total ≠ 0 →
       getCount counts "FAILED" = 0 → getCount counts "PARTIAL" = 0 →
       getCount counts "Not Run" + getCount counts "NOT TESTED" = 0 →
       getCount counts "PASSED" = total →
       summarize_counts counts total = "PASSED") ∧
    (∀ (counts : List (String × Nat)) (total : Nat), total ≠ 0 →
       getCount counts "FAILED" = 0 → getCount counts "PARTIAL" = 0 →
       getCount counts "Not Run" + getCount counts "NOT TESTED" = 0 →
       getCount counts "PASSED" ≠ total →
       summarize_counts counts total = "Mixed") ∧
    (∀ (c1 c2 : List (String × Nat)) (total : Nat),
       (∀ k, getCount c1 k = getCount c2 k) →
       summarize_counts c1 total = summarize_counts c2 total) ∧
    (∀ (p : Project) (rid : String), (tests_rollup p rid).2.2 = [] →
       tests_rollup p rid = ("No Tests", [], [])) := by
  refine ⟨?_, ?_, ?_, ?_, ?_, ?_, ?_, ?_⟩
  · intro counts total h0
    unfold summarize_counts
    rw [if_pos h0]
  · intro counts total h0 hf
    unfold summarize_counts
    rw [if_neg h0, if_pos hf]
  · intro counts total h0 hf hp
    unfold summarize_counts
    rw [if_neg h0, if_neg (by omega), if_pos hp]
  · intro counts total h0 hf hp hnr
    unfold summarize_counts
    rw [if_neg h0, if_neg (by omega), if_neg (by omega), if_pos hnr]
  · intro counts total h0 hf hp hnr hpass
    unfold summarize_counts
    rw [if_neg h0, if_neg (by omega), if_neg (by omega), if_neg (by omega),
      if_pos hpass]
  · intro counts total h0 hf hp hnr hpass
    unfold summarize_counts
    rw [if_neg h0, if_neg (by omega), if_neg (by omega), if_neg (by omega),
      if_neg hpass]
  · exact summarize_counts_congr
  · intro p rid h
    have hrfl : tests_rollup p rid =
        (summarize_counts (((tests_rollup p rid).2.2).foldl (bumpStep p) [])
          ((tests_rollup p rid).2.2).length,
         ((tests_rollup p rid).2.2).foldl (bumpStep p) [],
         (tests_rollup p rid).2.2) := rfl
    rw [hrfl, h]
    rfl

/-- C1 (witness): two concrete instances of the amended precedence. -/
theorem C1_witness :
    summarize_counts [("FAILED", 1), ("PASSED", 5)] 6 = "Any Fail" ∧
    summarize_counts [("PASSED", 5)] 5 = "PASSED" :=
  ⟨C1_label_precedence.2.1 [("FAILED", 1), ("PASSED", 5)] 6 (by decide) (by decide),
   C1_label_precedence.2.2.2.2.1 [("PASSED", 5)] 5 (by decide) (by decide)
     (by decide) (by decide) (by decide)⟩

/-- C2 (counterexample): in the two-cycle A→B→A the traversal does add A to
its own descendant set, because the visited set is not pre-seeded with the
start node and A is re-enqueued as a child of B. -/
theorem C2_counterexample :
    "SYS-SRS-001" ∈ descendants cycleProj "SYS-SRS-001" := by decide

/-- C2 (amended): a requirement can be a member of its own descendant set;
this happens only when its id occurs in some child-adjacency list (for
example on a cycle through it): with child edges A→B and B→A,
descendants(A) = {A, B}, not {B}. -/
theorem C2_self_membership :
    (∀ (p : Project) (r : String), r ∈ descendants p r →
       ∃ q, q ∈ p.req_children ∧ r ∈ q.2) ∧
    descendants cycleProj "SYS-SRS-001" = ["SYS-SRS-001", "SYS-SRS-002"] :=
  ⟨fun p r hr => descendants_mem_some_value p r r hr, by decide⟩

/-- C2 (witness): the amended theorem applied to the concrete cycle. -/
theorem C2_witness :
    ∃ q, q ∈ cycleProj.req_children ∧ "SYS-SRS-001" ∈ q.2 :=
  C2_self_membership.1 cycleProj "SYS-SRS-001" (by decide)

/-- C3 (counterexample): for the two-cycle A→B→A, descendants(B) is not
{A}: B itself is a member of the result. -/
theorem C3_counterexample :
    "SYS-SRS-002" ∈ descendants cycleProj "SYS-SRS-002" ∧
    "SYS-SRS-002" ≠ "SYS-SRS-001" := by
  constructor
  · decide
  · decide

/-- C3 (amended): the traversal terminates on every graph, cyclic ones
included — running the fuel-indexed loop with any fuel at least the initial
measure returns the stable result `descendants p rid` — and the result is a
duplicate-free (finite) list; for the two-cycle A→B→A, descendants(B) =
{B, A}. -/
theorem C3_termination :
    (∀ (p : Project) (rid : String) (n : Nat),
       descMeasure p.req_children [] ((getList p.req_children rid).reverse) ≤ n →
       descendantsAux p.req_children n [] ((getList p.req_children rid).reverse) =
         descendants p rid) ∧
    (∀ (p : Project) (rid : String), (descendants p rid).Nodup) ∧
    descendants cycleProj "SYS-SRS-002" = ["SYS-SRS-002", "SYS-SRS-001"] :=
  ⟨fun p rid n h => descendants_eq_aux p rid h,
   fun p rid => descendants_nodup p rid, by decide⟩

/-- C3 (witness): fuel 5 exceeds the initial measure of the cycle example,
so the loop result is already stable. -/
theorem C3_witness :
    descendantsAux cycleProj.req_children 5 []
      ((getList cycleProj.req_children "SYS-SRS-002").reverse) =
      descendants cycleProj "SYS-SRS-002" :=
  C3_termination.1 cycleProj "SYS-SRS-002" 5 (by decide)

/-! ## Rollup-aggregator lemmas -/

theorem foldl_bump_nodup (p : Project) :
    ∀ (l : List String) (c : List (String × Nat)), (dictKeys c).Nodup →
      (dictKeys (l.foldl (bumpStep p) c)).Nodup := by
  intro l
  induction l with
  | nil => intro c h; exact h
  | cons t l ih =>
    intro c h
    rw [List.foldl_cons]
    exact ih _ (nodup_dictKeys_dictSet h)

theorem foldl_bump_getCount (p : Project) :
    ∀ (l : List String) (c : List (String × Nat)) (k : String),
      getCount (l.foldl (bumpStep p) c) k =
        getCount c k + countOcc (l.map (rollupCategory p)) k := by
  intro l
  induction l with
  | nil => intro c k; simp [countOcc]
  | cons t l ih =>
    intro c k
    rw [List.foldl_cons, ih]
    have hbump : getCount (bumpStep p c t) k =
        getCount c k + (if rollupCategory p t = k then 1 else 0) := by
      unfold bumpStep getCount
      rw [dictGet_dictSet]
      by_cases hk : k = rollupCategory p t
      · simp [hk, getCount]
      · have hk2 : ¬ rollupCategory p t = k := fun h => hk h.symm
        simp [hk, hk2]
    simp only [List.map_cons, countOcc]
    omega

theorem foldl_bump_sum (p : Project) :
    ∀ (l : List String) (c : List (String × Nat)), (dictKeys c).Nodup →
      sumVals (l.foldl (bumpStep p) c) = sumVals c + l.length := by
  intro l
  induction l with
  | nil => intro c h; simp
  | cons t l ih =>
    intro c h
    have hnd : (dictKeys (bumpStep p c t)).Nodup := by
      unfold bumpStep
      exact nodup_dictKeys_dictSet h
    rw [List.foldl_cons, ih _ hnd]
    have hb := sumVals_bump (k := rollupCategory p t) h
    unfold bumpStep
    simp only [List.length_cons]
    omega

theorem foldl_append_join {α β : Type} (g : β → List α) :
    ∀ (l : List β) (a : List α),
      l.foldl (fun acc c => acc ++ g c) a = a ++ (l.map g).flatten := by
  intro l
  induction l with
  | nil => intro a; simp
  | cons b l ih =>
    intro a
    rw [List.foldl_cons, ih]
    simp [List.append_assoc]

theorem rollupCategory_missing (p : Project) (tid : String)
    (h : dictGet p.tests tid = none) : rollupCategory p tid = "Missing" := by
  unfold rollupCategory
  rw [h]
  rfl

theorem rollupCategory_blank (p : Project) (tid : String) (tc : TestCase)
    (h : dictGet p.tests tid = some tc) (hb : trimString tc.result = "") :
    rollupCategory p tid = "Not Run" := by
  unfold rollupCategory
  rw [h]
  simp [hb]

/-! ## Descendants of a built graph stay inside the requirement keys -/

theorem build_graph_getList_mem (p : Project) (hnd : (dictKeys p.requirements).Nodup)
    (k x : String) (hx : x ∈ getList (build_graph p).req_children k) :
    x ∈ dictKeys p.requirements ∧ is_test_id x = false := by
  rcases mem_getList_exists hx with ⟨v, hget, hxv⟩
  by_cases hk : k ∈ dictKeys p.requirements
  · rcases mem_dictKeys.mp hk with ⟨req, hreq⟩
    rcases build_graph_get p hnd hreq with ⟨hc, _⟩
    have hv : v = childTokens p req.outgoing := by
      have := hget.symm.trans hc
      exact Option.some.inj this
    subst hv
    have hpred := (List.mem_filter.mp hxv).2
    simp only [childPred, Bool.and_eq_true, Bool.not_eq_true', decide_eq_true_eq] at hpred
    exact ⟨hpred.2, hpred.1⟩
  · have hnone : dictGet (build_graph p).req_children k = none := by
      apply dictGet_eq_none
      rw [(build_graph_keys p).1]
      exact hk
    rw [hnone] at hget
    cases hget

theorem descendants_build_mem (p : Project) (hnd : (dictKeys p.requirements).Nodup)
    (rid x : String) (hx : x ∈ descendants (build_graph p) rid) :
    x ∈ dictKeys p.requirements ∧ is_test_id x = false := by
  refine descendants_invariant (build_graph p)
    (fun y => y ∈ dictKeys p.requirements ∧ is_test_id y = false) ?_ rid x hx
  intro k y hy
  exact build_graph_getList_mem p hnd k y hy

/-- C4: for every requirement the graph builder processes the outgoing
tokens in order: a token classified as a test id is appended to the
test-link list regardless of any test-record lookup; otherwise a token
equal to a known requirement id is appended to the child-link list;
any other token (a broken link) lands in neither map while the
requirement entities — and so the raw token lists — are left unchanged;
both outputs are order-preserving filters with no deduplication. -/
theorem C4_link_resolution (p : Project) (hnd : (dictKeys p.requirements).Nodup)
    (rid : String) (req : Requirement) (hmem : (rid, req) ∈ p.requirements) :
    dictGet (build_graph p).req_children rid =
      some (req.outgoing.filter (fun t =>
        !(is_test_id t) && decide (t ∈ dictKeys p.requirements))) ∧
    dictGet (build_graph p).req_tests rid =
      some (req.outgoing.filter (fun t => is_test_id t)) ∧
    (build_graph p).requirements = p.requirements ∧
    (∀ t, is_test_id t = false → t ∉ dictKeys p.requirements →
       t ∉ getList (build_graph p).req_children rid ∧
       t ∉ getList (build_graph p).req_tests rid) := by
  rcases build_graph_get p hnd hmem with ⟨h1, h2⟩
  refine ⟨h1, h2, rfl, ?_⟩
  intro t ht hmem2
  constructor
  · intro hx
    rw [getList, h1] at hx
    simp only [Option.getD_some] at hx
    have hpred := (List.mem_filter.mp hx).2
    simp only [childPred, Bool.and_eq_true, Bool.not_eq_true',
      decide_eq_true_eq] at hpred
    exact hmem2 hpred.2
  · intro hx
    rw [getList, h2] at hx
    simp only [Option.getD_some] at hx
    have hpred := (List.mem_filter.mp hx).2
    simp only [testTokens] at hpred
    rw [ht] at hpred
    cases hpred

/-- C4 (witness): in the concrete example the broken link SYS-SRS-999
produces no child edge and no test edge, the unknown test id SYS-AT-003 is
still appended to the test list, and the raw outgoing list is preserved. -/
theorem C4_witness :
    dictGet (build_graph exampleBase).req_children "SYS-SRS-010" =
      some ["SYS-SRS-011"] ∧
    dictGet (build_graph exampleBase).req_tests "SYS-SRS-010" =
      some ["SYS-AT-003"] ∧
    (build_graph exampleBase).requirements = exampleBase.requirements ∧
    "SYS-SRS-999" ∉ getList (build_graph exampleBase).req_children "SYS-SRS-010" ∧
    "SYS-SRS-999" ∉ getList (build_graph exampleBase).req_tests "SYS-SRS-010" ∧
    "SYS-SRS-999" ∈ reqR1.outgoing := by
  have h := C4_link_resolution exampleBase (by decide) "SYS-SRS-010" reqR1 (by decide)
  rcases h with ⟨h1, h2, h3, h4⟩
  have hb := h4 "SYS-SRS-999" (by decide) (by decide)
  refine ⟨?_, ?_, h3, hb.1, hb.2, by decide⟩
  · rw [h1]
    decide
  · rw [h2]
    decide

/-- C5: the rollup's associated-test-id list is the direct tests of the
requirement followed by the direct tests of each member of its descendant
set, preserving duplicates; its tally counts each collected id under the
category of its (trimmed) result, with unknown ids tallied as Missing and
blank results as "Not Run"; the function is total, so it always returns. -/
theorem C5_rollup_aggregation (p : Project) (rid : String) :
    (tests_rollup p rid).2.2 =
      getList p.req_tests rid ++
        ((descendants p rid).map (fun d => getList p.req_tests d)).flatten ∧
    (∀ k, getCount (tests_rollup p rid).2.1 k =
       countOcc (((tests_rollup p rid).2.2).map (rollupCategory p)) k) ∧
    (∀ tid, dictGet p.tests tid = none → rollupCategory p tid = "Missing") ∧
    (∀ tid tc, dictGet p.tests tid = some tc → trimString tc.result = "" →
       rollupCategory p tid = "Not Run") := by
  refine ⟨?_, ?_, rollupCategory_missing p, rollupCategory_blank p⟩
  · show (descendants p rid).foldl
      (fun acc child => acc ++ getList p.req_tests child)
      (getList p.req_tests rid) = _
    exact foldl_append_join (fun d => getList p.req_tests d) (descendants p rid)
      (getList p.req_tests rid)
  · intro k
    show getCount (((tests_rollup p rid).2.2).foldl (bumpStep p) []) k = _
    rw [foldl_bump_getCount]
    simp [getCount, dictGet]

/-- C5 (witness): in the duplicate-test project the shared passing test is
collected twice and counted twice, an unknown id is Missing, and the blank
result is "Not Run". -/
theorem C5_witness :
    (tests_rollup dupProj "SYS-SRS-001").2.2 = ["SYS-AT-009", "SYS-AT-009"] ∧
    getCount (tests_rollup dupProj "SYS-SRS-001").2.1 "PASSED" = 2 ∧
    rollupCategory dupProj "SYS-XX-999" = "Missing" ∧
    rollupCategory dupProj "SYS-AT-010" = "Not Run" := by
  have h := C5_rollup_aggregation dupProj "SYS-SRS-001"
  refine ⟨?_, ?_, h.2.2.1 "SYS-XX-999" (by decide),
    h.2.2.2 "SYS-AT-010" tcBlank (by decide) (by decide)⟩
  · rw [h.1]
    decide
  · rw [h.2.1 "PASSED"]
    decide

/-- C6: `parse_external_id` splits the trimmed identifier on hyphens into
module abbreviation, type code, and the remaining segments rejoined with
hyphens, failing exactly when fewer than three segments result;
`is_test_id` is true iff the identifier parses with type code AT and
swallows a parse failure as false; concretely SYS-AT-003 is a test id,
SYS-SRS-010 is not, and "BAD" fails to parse. -/
theorem C6_classifier :
    (∀ eid, parse_external_id eid = none ↔ (idParts eid).length < 3) ∧
    (∀ (eid p0 p1 p2 : String) (rest : List String),
       idParts eid = p0 :: p1 :: p2 :: rest →
       parse_external_id eid = some (p0, p1, joinWith "-" (p2 :: rest))) ∧
    (∀ eid, is_test_id eid = true ↔
       ∃ a c, parse_external_id eid = some (a, "AT", c)) ∧
    (∀ eid, parse_external_id eid = none → is_test_id eid = false) ∧
    (is_test_id "SYS-AT-003" = true ∧ is_test_id "SYS-SRS-010" = false ∧
     parse_external_id "BAD" = none) :=
  ⟨parse_none_iff, parse_some_eq, is_test_id_iff, is_test_id_of_parse_none,
   by decide, by decide, by decide⟩

/-- C6 (witness): the success case applied to a concrete identifier and the
failure-swallowing case applied to the malformed identifier. -/
theorem C6_witness :
    parse_external_id "SYS-AT-003" = some ("SYS", "AT", "003") ∧
    is_test_id "BAD" = false :=
  ⟨C6_classifier.2.1 "SYS-AT-003" "SYS" "AT" "003" [] (by decide),
   C6_classifier.2.2.2.1 "BAD" (by decide)⟩

/-- C7: after `build_graph`, both adjacency maps carry an entry (possibly
empty) for every known requirement id, so lookups keyed by a known id
never miss. -/
theorem C7_total_maps (p : Project) (rid : String)
    (h : rid ∈ dictKeys p.requirements) :
    rid ∈ dictKeys (build_graph p).req_children ∧
    rid ∈ dictKeys (build_graph p).req_tests ∧
    (dictGet (build_graph p).req_children rid).isSome = true ∧
    (dictGet (build_graph p).req_tests rid).isSome = true := by
  rcases build_graph_keys p with ⟨k1, k2⟩
  have h1 : rid ∈ dictKeys (build_graph p).req_children := by
    rw [k1]
    exact h
  have h2 : rid ∈ dictKeys (build_graph p).req_tests := by
    rw [k2]
    exact h
  rcases dictGet_isSome_of_mem h1 with ⟨v, hv⟩
  rcases dictGet_isSome_of_mem h2 with ⟨w, hw⟩
  exact ⟨h1, h2, by simp [hv], by simp [hw]⟩

/-- C7 (witness): applied to a leaf requirement of the example project,
whose entries exist and are empty. -/
theorem C7_witness :
    "SYS-SRS-011" ∈ dictKeys (build_graph exampleBase).req_children ∧
    "SYS-SRS-011" ∈ dictKeys (build_graph exampleBase).req_tests ∧
    (dictGet (build_graph exampleBase).req_children "SYS-SRS-011").isSome = true ∧
    (dictGet (build_graph exampleBase).req_tests "SYS-SRS-011").isSome = true :=
  C7_total_maps exampleBase "SYS-SRS-011" (by decide)

/-- C9: over adjacency maps produced by `build_graph`, every member of any
descendant set is a key of the requirements map and is not classified as a
test id — so descendant sets contain neither test ids nor broken-link
tokens. -/
theorem C9_descendants_known (p : Project)
    (hnd : (dictKeys p.requirements).Nodup) (rid x : String)
    (hx : x ∈ descendants (build_graph p) rid) :
    x ∈ dictKeys p.requirements ∧ is_test_id x = false :=
  descendants_build_mem p hnd rid x hx

/-- C9 (witness): the only descendant in the example project is the known
requirement SYS-SRS-011, and it is not a test id. -/
theorem C9_witness :
    "SYS-SRS-011" ∈ dictKeys exampleBase.requirements ∧
    is_test_id "SYS-SRS-011" = false :=
  C9_descendants_known exampleBase (by decide) "SYS-SRS-010" "SYS-SRS-011"
    (by decide)

/-- C10: the per-category counts of a rollup sum exactly to the length of
the returned associated-test-id list, and that length is the total passed
to the label reduction. -/
theorem C10_counts_sum (p : Project) (rid : String) :
    sumVals (tests_rollup p rid).2.1 = ((tests_rollup p rid).2.2).length ∧
    (tests_rollup p rid).1 =
      summarize_counts (tests_rollup p rid).2.1
        ((tests_rollup p rid).2.2).length := by
  constructor
  · show sumVals (((tests_rollup p rid).2.2).foldl (bumpStep p) []) = _
    rw [foldl_bump_sum p _ [] (by simp [dictKeys])]
    simp [sumVals]
  · rfl

/-- C8: replacing one requirement's outgoing token list by a permutation of
it leaves both adjacency maps unchanged as sets: membership in every
child-adjacency and test-adjacency list is preserved for every key. -/
theorem C8_perm_invariance (p : Project) (l1 l2 : List (String × Requirement))
    (rid : String) (req : Requirement) (out2 : List String)
    (hnd : (dictKeys p.requirements).Nodup)
    (hsplit : p.requirements = l1 ++ (rid, req) :: l2)
    (hperm : out2.Perm req.outgoing) (k x : String) :
    (x ∈ getList (build_graph { p with requirements :=
        l1 ++ (rid, { req with outgoing := out2 }) :: l2 }).req_children k ↔
      x ∈ getList (build_graph p).req_children k) ∧
    (x ∈ getList (build_graph { p with requirements :=
        l1 ++ (rid, { req with outgoing := out2 }) :: l2 }).req_tests k ↔
      x ∈ getList (build_graph p).req_tests k) := by
  set p2 : Project := { p with requirements :=
    l1 ++ (rid, { req with outgoing := out2 }) :: l2 } with hp2
  have hkeys : dictKeys p2.requirements = dictKeys p.requirements := by
    rw [hp2, hsplit]
    simp [dictKeys]
  have hnd2 : (dictKeys p2.requirements).Nodup := by
    rw [hkeys]
    exact hnd
  have hmem1 : (rid, req) ∈ p.requirements := by
    rw [hsplit]
    simp
  have hmem2 : (rid, { req with outgoing := out2 }) ∈ p2.requirements := by
    rw [hp2]
    simp
  have hpred : ∀ t, childPred p2 t = childPred p t := by
    intro t
    simp [childPred, hkeys]
  by_cases hk : k ∈ dictKeys p.requirements
  · by_cases hkr : k = rid
    · subst hkr
      rcases build_graph_get p hnd hmem1 with ⟨hc1, ht1⟩
      rcases build_graph_get p2 hnd2 hmem2 with ⟨hc2, ht2⟩
      have hcperm : (childTokens p2 out2).Perm (childTokens p req.outgoing) := by
        unfold childTokens
        rw [List.filter_congr (fun t _ => hpred t)]
        exact hperm.filter (childPred p)
      have htperm : (testTokens out2).Perm (testTokens req.outgoing) :=
        hperm.filter (fun t => is_test_id t)
      constructor
      · rw [getList, getList, hc1, hc2]
        simp only [Option.getD_some]
        exact hcperm.mem_iff
      · rw [getList, getList, ht1, ht2]
        simp only [Option.getD_some]
        exact htperm.mem_iff
    · rcases mem_dictKeys.mp hk with ⟨rq, hrq⟩
      have hrq2 : (k, rq) ∈ p2.requirements := by
        rw [hp2]
        rw [hsplit] at hrq
        simp only [List.mem_append, List.mem_cons] at hrq ⊢
        rcases hrq with h | h | h
        · exact Or.inl h
        · exact absurd (congrArg Prod.fst h) hkr
        · exact Or.inr (Or.inr h)
      rcases build_graph_get p hnd hrq with ⟨hc1, ht1⟩
      rcases build_graph_get p2 hnd2 hrq2 with ⟨hc2, ht2⟩
      have hchild_eq : childTokens p2 rq.outgoing = childTokens p rq.outgoing := by
        unfold childTokens
        exact List.filter_congr (fun t _ => hpred t)
      constructor
      · rw [getList, getList, hc1, hc2, hchild_eq]
      · rw [getList, getList, ht1, ht2]
  · have hk2 : k ∉ dictKeys p2.requirements := by
      rw [hkeys]
      exact hk
    have e1 : dictGet (build_graph p).req_children k = none := by
      apply dictGet_eq_none
      rw [(build_graph_keys p).1]
      exact hk
    have e2 : dictGet (build_graph p).req_tests k = none := by
      apply dictGet_eq_none
      rw [(build_graph_keys p).2]
      exact hk
    have e3 : dictGet (build_graph p2).req_children k = none := by
      apply dictGet_eq_none
      rw [(build_graph_keys p2).1]
      exact hk2
    have e4 : dictGet (build_graph p2).req_tests k = none := by
      apply dictGet_eq_none
      rw [(build_graph_keys p2).2]
      exact hk2
    constructor
    · rw [getList, getList, e1, e3]
    · rw [getList, getList, e2, e4]

/-- C8 (witness): permuting the outgoing list of SYS-SRS-010 in the example
project preserves membership of its child and test adjacency lists. -/
theorem C8_witness :
    ("SYS-SRS-011" ∈ getList (build_graph { exampleBase with requirements :=
        [] ++ ("SYS-SRS-010",
          { reqR1 with outgoing := ["SYS-SRS-999", "SYS-AT-003", "SYS-SRS-011"] }) ::
          [("SYS-SRS-011", reqR2)] }).req_children "SYS-SRS-010" ↔
      "SYS-SRS-011" ∈ getList (build_graph exampleBase).req_children "SYS-SRS-010") ∧
    ("SYS-SRS-011" ∈ getList (build_graph { exampleBase with requirements :=
        [] ++ ("SYS-SRS-010",
          { reqR1 with outgoing := ["SYS-SRS-999", "SYS-AT-003", "SYS-SRS-011"] }) ::
          [("SYS-SRS-011", reqR2)] }).req_tests "SYS-SRS-010" ↔
      "SYS-SRS-011" ∈ getList (build_graph exampleBase).req_tests "SYS-SRS-010") :=
  C8_perm_invariance exampleBase [] [("SYS-SRS-011", reqR2)] "SYS-SRS-010" reqR1
    ["SYS-SRS-999", "SYS-AT-003", "SYS-SRS-011"] (by decide) (by decide) (by decide)
    "SYS-SRS-010" "SYS-SRS-011"
